import Mathlib

/-!
Verification development for the availability engine of `calendar_utils.py`
(calendarbot-render).

Shallow embedding conventions:

* Local wall-clock instants are integers. For the normalizer
  (`normRaw`, `toLocalSeconds`) they are seconds since the Unix epoch as read
  on the local clock; for the availability engine (`Evento.start_local`,
  gaps, slots) they are minutes since the epoch, matching the minute
  precision of the `"%Y-%m-%dT%H:%M"` strings the code stores (string
  comparison on those stamps coincides with the numeric order used here).
* Dates (`fecha`, `start_date`, `end_date`) are day indices since the epoch;
  the local date of an instant `t` in seconds is `t.fdiv 86400`, mirroring
  `strftime("%Y-%m-%d")`.
* The timezone "America/Argentina/Buenos_Aires" is a fixed UTC-03:00 offset
  (no DST), embedded as `-10800` seconds.
* Times-of-day (`window_start`, `window_end`, e.g. "14:00") are minutes
  after midnight, so "14:00" is 840 and "21:00" is 1260; lexicographic
  comparison of well-formed "HH:MM" strings coincides with this order.
* Python's truthiness tests on optional strings (`if not instr`,
  `if salas_csv`, `if profe`, `x or ""`) are embedded by treating both
  `none` and `some ""` as falsy.
* `_gaps` compares two kinds of aware datetimes: the window bounds built
  with `ZONA_LOCAL.localize(...)` carry the correct -03:00 offset, while
  the event bounds re-parsed with `strptime(...).replace(tzinfo=ZONA_LOCAL)`
  carry pytz's first zone entry, the LMT -03:54 offset.  An aware datetime
  is therefore embedded as a wall-clock value (what `strftime` renders)
  together with its offset (`AwareDT`); comparisons, `max`, and timedelta
  differences between aware datetimes act on the instant (wall + offset),
  so events are effectively shifted 54 minutes against the window.
* Python's `str.lower` is embedded over ASCII plus the Latin-1 uppercase
  letters, which covers every accented capital relevant to the code's
  lowercase vocabulary ("batería", "andrés", "tomás", ...).
* Python's stable `list.sort`/`sorted` is embedded as the stable insertion
  sort `sortByLe`; dict insertion-order semantics of the deduplication dict
  comprehension are embedded by `dedupe` (first-occurrence position, last
  value per key).
* The free-text `_parse_desc` heuristic (whose result only feeds the
  `instrumento`/`profe` fields) iterates over unordered Python sets; its
  outputs are taken as inputs here (`normRaw` receives the parsed fields).
-/

namespace CalendarBot

/-- Embedding of Python's `str.lower` on one character: ASCII plus the
Latin-1 uppercase letters À (192) to Þ (222) except × (215), which fold to
their lowercase forms 32 code points higher — in particular Á→á, É→é,
Í→í, Ó→ó, Ú→ú, the accented capitals occurring in the code's comparison
targets. -/
def charLower (c : Char) : Char :=
  if 192 ≤ c.toNat ∧ c.toNat ≤ 222 ∧ c.toNat ≠ 215 then Char.ofNat (c.toNat + 32)
  else c.toLower

/-- Embedding of Python's `str.lower` (ASCII and Latin-1 letters; the
code's whole case-insensitive vocabulary lies in this range).  Defined
structurally over the character list so that the kernel can evaluate it. -/
def strLower (s : String) : String := ⟨s.data.map charLower⟩

/-- Embedding of Python's `str.strip`: drop whitespace on both ends. -/
def strTrim (s : String) : String :=
  ⟨((s.data.dropWhile Char.isWhitespace).reverse.dropWhile Char.isWhitespace).reverse⟩

/-- Embedding of Python's falsiness test on a string (`if not s`). -/
def esVacia (s : String) : Bool := s.data.isEmpty

/-- Lexicographic comparison of character lists by code point. -/
def charListLt : List Char → List Char → Bool
  | [], [] => false
  | [], _ :: _ => true
  | _ :: _, [] => false
  | a :: as, b :: bs =>
      if a.toNat < b.toNat then true
      else if b.toNat < a.toNat then false
      else charListLt as bs

/-- Embedding of Python's `<` on strings: lexicographic by code point.
Defined structurally so that the kernel can evaluate it. -/
def strLt (a b : String) : Bool := charListLt a.data b.data

/-- Worker for `splitComma`: accumulate the current piece (reversed). -/
def splitCommaAux : List Char → List Char → List String
  | [], acc => [⟨acc.reverse⟩]
  | c :: cs, acc =>
      if c = ',' then ⟨acc.reverse⟩ :: splitCommaAux cs []
      else splitCommaAux cs (c :: acc)

/-- Embedding of Python's `s.split(",")`: one piece per comma-separated
segment (n commas give n+1 pieces, empty pieces included). -/
def splitComma (s : String) : List String := splitCommaAux s.data []

/-- Keys of `CALENDAR_IDS` in insertion order (the room names). -/
def CALENDAR_SALAS : List String :=
  ["Sala grande", "Sala piano", "Sala picola", "Sala terraza"]

/-- Embeds `salas_permitidas_por_instrumento` (calendar_utils.py lines 26-36).
`none`/empty strings are falsy in Python's `if not instr`. -/
def salas_permitidas_por_instrumento (instr : Option String) : List String :=
  match instr with
  | none => CALENDAR_SALAS
  | some s =>
      if esVacia s then CALENDAR_SALAS
      else
        let i := strLower s
        if i = "batería" ∨ i = "bateria" then ["Sala piano", "Sala terraza"]
        else if i = "piano" then
          ["Sala piano", "Sala grande", "Sala picola", "Sala terraza"]
        else CALENDAR_SALAS

/-- A raw provider start/end: either an RFC3339 instant (given by its UTC
second count) or a date-only all-day marker (given by its day index). -/
inductive RawDT where
  | dateTime (utcSeconds : Int)
  | dateOnly (day : Int)
deriving DecidableEq

/-- UTC offset of the local zone, in seconds (UTC-03:00). -/
def UTC_OFFSET : Int := -10800

/-- Embeds `_to_local` (lines 45-52): wall-clock seconds of the local
rendering of the parsed value.  A date-only string is parsed as midnight
UTC of that day and then converted to the local zone. -/
def toLocalSeconds : RawDT → Int
  | .dateTime t => t + UTC_OFFSET
  | .dateOnly d => d * 86400 + UTC_OFFSET

/-- Local date (day index) of a local wall-clock second count. -/
def localDay (t : Int) : Int := t.fdiv 86400

/-- One normalized event, as appended by `fetch_eventos` (lines 104-118).
`start_local`/`end_local` are minutes since the epoch (minute-truncated,
like the stored `"%Y-%m-%dT%H:%M"` strings); `fecha` is the local date of
the start. -/
structure Evento where
  sala : String
  fecha : Int
  start_local : Int
  end_local : Int
  duracion_min : Int
  instrumento : Option String
  profe : Option String
deriving DecidableEq

/-- Embeds the per-event normalization body of `fetch_eventos`
(lines 87-118): local conversion, the all-day override of the end to
23:59:59 on the start's local date, and the clamped duration.  The parsed
`instrumento`/`profe` fields are passed in (see the header note on
`_parse_desc`).  No branch raises, so every raw event is emitted. -/
def normRaw (sala : String) (start fin : RawDT) (instrumento profe : Option String) :
    Evento :=
  let s := toLocalSeconds start
  let e0 := toLocalSeconds fin
  let e :=
    match start, fin with
    | .dateOnly _, .dateOnly _ => localDay s * 86400 + 86399
    | _, _ => e0
  { sala := sala
    fecha := localDay s
    start_local := s.fdiv 60
    end_local := e.fdiv 60
    duracion_min := max 0 ((e - s).fdiv 60)
    instrumento := instrumento
    profe := profe }

/-- Stable insertion step: place `x` before the first element `y` with
`le x y`.  With `le` a total preorder this realizes Python's stable sort. -/
def insertByLe (le : α → α → Bool) (x : α) : List α → List α
  | [] => [x]
  | y :: ys => if le x y then x :: y :: ys else y :: insertByLe le x ys

/-- Stable insertion sort, the embedding of Python's `list.sort`/`sorted`. -/
def sortByLe (le : α → α → Bool) : List α → List α
  | [] => []
  | x :: xs => insertByLe le x (sortByLe le xs)

/-- Sort order used on events: by `start_local` (the code sorts on the
`"%Y-%m-%dT%H:%M"` string, whose order is the numeric one). -/
def evLe (a b : Evento) : Bool := decide (a.start_local ≤ b.start_local)

/-- An aware datetime as the sweep manipulates them: the local wall-clock
minutes (what `strftime` renders and slot records store) together with the
minutes that separate that wall clock from UTC.  `ZONA_LOCAL.localize`
attaches the correct -03:00 offset (180 minutes to UTC), while
`.replace(tzinfo=ZONA_LOCAL)` attaches pytz's first zone entry, the LMT
-03:54 offset (234 minutes to UTC). -/
structure AwareDT where
  wall : Int
  off : Int
deriving DecidableEq

/-- The instant (UTC minutes) of an aware datetime; Python compares,
maxes and subtracts aware datetimes through this value. -/
def instant (t : AwareDT) : Int := t.wall + t.off

/-- Offset (minutes to UTC) attached by `ZONA_LOCAL.localize` for modern
dates: UTC-03:00. -/
def OFF_LOCALIZE : Int := 180

/-- Offset (minutes to UTC) attached by `.replace(tzinfo=ZONA_LOCAL)`:
pytz's LMT entry for Buenos Aires, UTC-03:54. -/
def OFF_REPLACE : Int := 234

/-- Python's `max` on two aware datetimes: the second argument only when
it is strictly later as an instant. -/
def maxDT (a b : AwareDT) : AwareDT := if instant a < instant b then b else a

/-- The sweep loop of `_gaps` (lines 152-165): cursor over the sorted
events, emitting `(cursor, start)` gaps and a final `(cursor, day_end)`.
The events are re-parsed with `replace(tzinfo=ZONA_LOCAL)` (offset
`OFF_REPLACE`); the cursor starts at the `localize`d window start. -/
def sweepGaps (dayEnd : AwareDT) : AwareDT → List Evento → List (AwareDT × AwareDT)
  | cursor, [] => if instant cursor < instant dayEnd then [(cursor, dayEnd)] else []
  | cursor, e :: rest =>
      let s : AwareDT := ⟨e.start_local, OFF_REPLACE⟩
      let f : AwareDT := ⟨e.end_local, OFF_REPLACE⟩
      if instant f ≤ instant cursor then sweepGaps dayEnd cursor rest
      else if instant cursor < instant s then
        (cursor, s) :: sweepGaps dayEnd (maxDT cursor f) rest
      else sweepGaps dayEnd (maxDT cursor f) rest

/-- Embeds `_gaps` (lines 138-165): free intervals for one room on one day,
window bounds in minutes-of-day, `localize`d to -03:00. -/
def gapsLibres (enDia : List Evento) (fecha : Int) (sala : String)
    (windowStart windowEnd : Int) : List (AwareDT × AwareDT) :=
  let dayStart : AwareDT := ⟨fecha * 1440 + windowStart, OFF_LOCALIZE⟩
  let dayEnd : AwareDT := ⟨fecha * 1440 + windowEnd, OFF_LOCALIZE⟩
  let evs := sortByLe evLe (enDia.filter fun e => e.sala == sala)
  sweepGaps dayEnd dayStart evs

/-- Embeds `_profes_presentes_por_dia` (lines 129-136) read at one date:
the teachers (truthy `profe` fields) of the events dated `fecha`. -/
def presentesEn (eventos : List Evento) (fecha : Int) : List String :=
  eventos.filterMap fun e =>
    if e.fecha = fecha then
      match e.profe with
      | some p => if esVacia p then none else some p
      | none => none
    else none

/-- The per-date teacher gate of `disponibilidad` (lines 212-216): with a
truthy requested teacher, the date passes only if that teacher appears
(case-insensitively) among the day's parsed teachers. -/
def profeGate (eventos : List Evento) (profe : Option String) (fecha : Int) : Bool :=
  match profe with
  | none => true
  | some p =>
      if esVacia p then true
      else decide (strLower p ∈ (presentesEn eventos fecha).map strLower)

/-- Embeds lines 189-192: the inclusive date list of the range; an inverted
range gives a nonpositive `total_dias` and hence an empty list, exactly as
Python's `range`. -/
def fechasOf (startDate endDate : Int) : List Int :=
  (List.range (endDate - startDate + 1).toNat).map fun i => startDate + i

/-- The fixed piano preference list (line 198). -/
def preferPiano : List String :=
  ["Sala piano", "Sala grande", "Sala picola", "Sala terraza"]

/-- The sort key of line 199: index in `preferPiano`, else 99. -/
def prefKey (s : String) : Nat :=
  (preferPiano.findIdx? fun x => x == s).getD 99

/-- Room comparison for the piano reordering (stable sort by `prefKey`). -/
def salaLe (a b : String) : Bool := decide (prefKey a ≤ prefKey b)

/-- Embeds lines 194-199: explicit CSV list (split on commas, stripped) when
truthy, else the instrument policy; then the piano reordering, which the
code applies to either origin of the list. -/
def salasOf (salasCsv instrumento : Option String) : List String :=
  let base :=
    match salasCsv with
    | some csv =>
        if esVacia csv then salas_permitidas_por_instrumento instrumento
        else splitComma csv
    | none => salas_permitidas_por_instrumento instrumento
  let salas := base.map strTrim
  if strLower (instrumento.getD ("")) = "piano" then sortByLe salaLe salas
  else salas

/-- Embeds line 202: the candidate durations. -/
def duracionesOf (durMin : Option Int) : List Int :=
  match durMin with
  | some d => if d = 30 ∨ d = 45 ∨ d = 60 then [d] else [30, 45, 60]
  | none => [30, 45, 60]

/-- One availability slot, as appended at lines 232-254. -/
structure Slot where
  fecha : Int
  sala : String
  instrumento : Option String
  profe : Option String
  start_local : Int
  end_local : Int
  dur_min : Int
  tipo : String
deriving DecidableEq

/-- Slot generation for one gap and one candidate duration (lines 226-254):
the start-of-gap slot, and the dovetail slot when it still starts at or
after the gap start as instants.  Slot records store the wall clocks
(`strftime`); the timedelta shift keeps the datetime's own offset. -/
def slotsGapDur (fecha : Int) (sala : String) (instrumento profe : Option String)
    (gs ge : AwareDT) (gapMin d : Int) : List Slot :=
  if d > gapMin then []
  else
    let first : Slot :=
      ⟨fecha, sala, instrumento, profe, gs.wall, gs.wall + d, d, "inicio_hueco"⟩
    if instant ⟨ge.wall - d, ge.off⟩ ≥ instant gs then
      [first, ⟨fecha, sala, instrumento, profe, ge.wall - d, ge.wall, d, "encastre_fin"⟩]
    else [first]

/-- Slot generation for one gap (lines 221-254): the gap length the code
measures (`total_seconds() // 60` of the aware difference) is the instant
difference; gaps measuring less than 30 yield nothing, otherwise every
candidate duration is tried. -/
def slotsDeGap (fecha : Int) (sala : String) (instrumento profe : Option String)
    (duraciones : List Int) (g : AwareDT × AwareDT) : List Slot :=
  let gapMin := instant g.2 - instant g.1
  if gapMin < 30 then []
  else duraciones.flatMap (slotsGapDur fecha sala instrumento profe g.1 g.2 gapMin)

/-- Slot generation for one date (lines 218-254): the date's events are the
ones whose `fecha` field matches (the `ev_por_fecha` buckets). -/
def slotsDeDia (eventos : List Evento) (fecha : Int) (salas : List String)
    (duraciones : List Int) (instrumento profe : Option String)
    (windowStart windowEnd : Int) : List Slot :=
  let enDia := eventos.filter fun e => e.fecha == fecha
  salas.flatMap fun sala =>
    (gapsLibres enDia fecha sala windowStart windowEnd).flatMap
      (slotsDeGap fecha sala instrumento profe duraciones)

/-- The accumulation loop of `disponibilidad` (lines 209-254): per date,
the teacher gate, then the per-room/per-gap slot generation. -/
def resultadosDe (eventos : List Evento) (fechas : List Int) (salas : List String)
    (duraciones : List Int) (instrumento profe : Option String)
    (windowStart windowEnd : Int) : List Slot :=
  fechas.flatMap fun fecha =>
    if profeGate eventos profe fecha then
      slotsDeDia eventos fecha salas duraciones instrumento profe windowStart windowEnd
    else []

/-- The deduplication key of line 257. -/
def dedupKey (r : Slot) : String × Int × Int × String × String :=
  (r.sala, r.start_local, r.end_local, r.profe.getD (""), r.instrumento.getD (""))

/-- One step of the dict comprehension of line 257: an existing key keeps
its (first-occurrence) position but takes the new value; a new key is
appended. -/
def updAssoc (acc : List Slot) (r : Slot) : List Slot :=
  if acc.any fun x => decide (dedupKey x = dedupKey r) then
    acc.map fun x => if dedupKey x = dedupKey r then r else x
  else acc ++ [r]

/-- Embeds the dict comprehension of line 257 followed by `.values()`. -/
def dedupe (rs : List Slot) : List Slot := rs.foldl updAssoc []

/-- The final sort key of line 259: the tuple `(fecha, sala, start_local)`
under Python tuple comparison. -/
def slotKeyLe (a b : Slot) : Bool :=
  decide (a.fecha < b.fecha) ||
    (decide (a.fecha = b.fecha) &&
      (strLt a.sala b.sala ||
        (decide (a.sala = b.sala) && decide (a.start_local ≤ b.start_local))))

/-- Embeds `disponibilidad` (lines 167-260).  The `assert` on the window is
the only guard the function has; it is embedded as the `Except.error`
branch.  Everything after it is the slot pipeline. -/
def disponibilidad (eventos : List Evento) (startDate endDate : Int)
    (instrumento profe : Option String) (durMin : Option Int)
    (salasCsv : Option String) (windowStart windowEnd : Int) :
    Except String (List Slot) :=
  if windowStart < windowEnd then
    let fechas := fechasOf startDate endDate
    let salas := salasOf salasCsv instrumento
    let duraciones := duracionesOf durMin
    Except.ok (sortByLe slotKeyLe
      (dedupe (resultadosDe eventos fechas salas duraciones instrumento profe
        windowStart windowEnd)))
  else Except.error ("window_start debe ser < window_end")

/-- The payload of an `Except.ok` result (empty list on error). -/
def okOf (e : Except String (List Slot)) : List Slot := e.toOption.getD []

/-- Whether a result is an `Except.ok`. -/
def isOkB : Except String (List Slot) → Bool
  | .ok _ => true
  | .error _ => false

/-- Overwrite a slot's `profe` field with a requested teacher. -/
def setProfe (p : String) (r : Slot) : Slot := { r with profe := some p }

/-! ### Basic permutation facts about the stable insertion sort -/

theorem insertByLe_perm (le : α → α → Bool) (x : α) (l : List α) :
    (insertByLe le x l).Perm (x :: l) := by
  induction l with
  | nil => simp [insertByLe]
  | cons y ys ih =>
    simp only [insertByLe]
    split
    · exact List.Perm.refl _
    · exact (ih.cons y).trans (List.Perm.swap x y ys)

theorem sortByLe_perm (le : α → α → Bool) (l : List α) :
    (sortByLe le l).Perm l := by
  induction l with
  | nil => simp [sortByLe]
  | cons x xs ih => exact (insertByLe_perm le x _).trans (ih.cons x)

theorem mem_sortByLe (le : α → α → Bool) (l : List α) (a : α) :
    a ∈ sortByLe le l ↔ a ∈ l :=
  (sortByLe_perm le l).mem_iff

theorem countP_sortByLe (le : α → α → Bool) (p : α → Bool) (l : List α) :
    (sortByLe le l).countP p = l.countP p :=
  (sortByLe_perm le l).countP_eq p

/-! ### Sortedness and filtering for the stable insertion sort -/

theorem mem_insertByLe (le : α → α → Bool) (x : α) (l : List α) (a : α) :
    a ∈ insertByLe le x l ↔ a = x ∨ a ∈ l := by
  rw [(insertByLe_perm le x l).mem_iff]
  simp

theorem insertByLe_of_all (le : α → α → Bool) (x : α) (l : List α)
    (h : ∀ y ∈ l, le x y = true) : insertByLe le x l = x :: l := by
  cases l with
  | nil => rfl
  | cons y ys => simp [insertByLe, h y (by simp)]

theorem pairwise_insertByLe (le : α → α → Bool)
    (htot : ∀ a b, le a b = false → le b a = true)
    (htrans : ∀ a b c, le a b = true → le b c = true → le a c = true)
    (x : α) : ∀ l : List α, List.Pairwise (fun a b => le a b = true) l →
      List.Pairwise (fun a b => le a b = true) (insertByLe le x l)
  | [], _ => by simp [insertByLe]
  | y :: ys, h => by
    rcases List.pairwise_cons.mp h with ⟨hy, hys⟩
    by_cases hxy : le x y = true
    · simp only [insertByLe, hxy, if_true]
      refine List.pairwise_cons.mpr ⟨?_, h⟩
      intro z hz
      rcases List.mem_cons.mp hz with rfl | hz
      · exact hxy
      · exact htrans x y z hxy (hy z hz)
    · have hxy' : le x y = false := by
        cases hle : le x y
        · rfl
        · exact absurd hle hxy
      simp only [insertByLe, hxy', Bool.false_eq_true, if_false]
      refine List.pairwise_cons.mpr
        ⟨?_, pairwise_insertByLe le htot htrans x ys hys⟩
      intro z hz
      rcases (mem_insertByLe le x ys z).mp hz with h | hz
      · rw [h]
        exact htot x y hxy'
      · exact hy z hz

theorem pairwise_sortByLe (le : α → α → Bool)
    (htot : ∀ a b, le a b = false → le b a = true)
    (htrans : ∀ a b c, le a b = true → le b c = true → le a c = true) :
    ∀ l : List α, List.Pairwise (fun a b => le a b = true) (sortByLe le l)
  | [] => by simp [sortByLe]
  | x :: xs => by
    simp only [sortByLe]
    exact pairwise_insertByLe le htot htrans x _
      (pairwise_sortByLe le htot htrans xs)

theorem filter_insertByLe (le : α → α → Bool)
    (htot : ∀ a b, le a b = false → le b a = true)
    (htrans : ∀ a b c, le a b = true → le b c = true → le a c = true)
    (p : α → Bool) (x : α) :
    ∀ l : List α, List.Pairwise (fun a b => le a b = true) l →
      (insertByLe le x l).filter p =
        if p x then insertByLe le x (l.filter p) else l.filter p
  | [], _ => by
    by_cases hp : p x <;> simp [insertByLe, hp]
  | y :: ys, h => by
    rcases List.pairwise_cons.mp h with ⟨hy, hys⟩
    by_cases hxy : le x y = true
    · simp only [insertByLe, hxy, if_true]
      by_cases hpx : p x
      · by_cases hpy : p y
        · simp [List.filter, hpx, hpy, insertByLe, hxy]
        · simp only [List.filter, hpx, hpy, if_true]
          have : insertByLe le x (ys.filter p) = x :: ys.filter p := by
            refine insertByLe_of_all le x _ ?_
            intro z hz
            exact htrans x y z hxy (hy z (List.mem_of_mem_filter hz))
          simp [hpx, hpy, this]
      · simp [List.filter, hpx]
    · have hxy' : le x y = false := by
        cases hle : le x y
        · rfl
        · exact absurd hle hxy
      simp only [insertByLe, hxy', Bool.false_eq_true, if_false]
      have ih := filter_insertByLe le htot htrans p x ys hys
      by_cases hpx : p x
      · by_cases hpy : p y
        · simp [List.filter, hpx, hpy, ih, insertByLe, hxy']
        · simp [List.filter, hpx, hpy, ih]
      · by_cases hpy : p y
        · simp [List.filter, hpx, hpy, ih]
        · simp [List.filter, hpx, hpy, ih]

theorem filter_sortByLe (le : α → α → Bool)
    (htot : ∀ a b, le a b = false → le b a = true)
    (htrans : ∀ a b c, le a b = true → le b c = true → le a c = true)
    (p : α → Bool) : ∀ l : List α,
      (sortByLe le l).filter p = sortByLe le (l.filter p)
  | [] => by simp [sortByLe]
  | x :: xs => by
    simp only [sortByLe]
    rw [filter_insertByLe le htot htrans p x _
      (pairwise_sortByLe le htot htrans xs)]
    by_cases hpx : p x
    · simp [List.filter, hpx, sortByLe, filter_sortByLe le htot htrans p xs]
    · simp [List.filter, hpx, sortByLe, filter_sortByLe le htot htrans p xs]

theorem evLe_total (a b : Evento) : evLe a b = false → evLe b a = true := by
  simp [evLe]
  omega

theorem evLe_trans (a b c : Evento) :
    evLe a b = true → evLe b c = true → evLe a c = true := by
  simp [evLe]
  omega

/-! ### The gap sweep -/

theorem instant_le_maxDT (a b : AwareDT) : instant a ≤ instant (maxDT a b) := by
  unfold maxDT
  split
  · omega
  · exact le_refl _

/-- Every gap emitted by the sweep starts at or after the cursor and is
non-degenerate, as instants. -/
theorem sweepGaps_bounds (de : AwareDT) :
    ∀ (l : List Evento) (c : AwareDT) (g : AwareDT × AwareDT),
      g ∈ sweepGaps de c l → instant c ≤ instant g.1 ∧ instant g.1 < instant g.2
  | [], c, g => by
    simp only [sweepGaps]
    split
    · intro hg
      rcases List.mem_singleton.mp hg with rfl
      exact ⟨le_refl _, by assumption⟩
    · intro hg
      exact absurd hg (List.not_mem_nil g)
  | e :: rest, c, g => by
    simp only [sweepGaps]
    split
    · exact sweepGaps_bounds de rest c g
    · split
      · intro hg
        rcases List.mem_cons.mp hg with rfl | hg
        · exact ⟨le_refl _, by assumption⟩
        · have := sweepGaps_bounds de rest (maxDT c ⟨e.end_local, OFF_REPLACE⟩) g hg
          exact ⟨le_trans (instant_le_maxDT _ _) this.1, this.2⟩
      · intro hg
        have := sweepGaps_bounds de rest (maxDT c ⟨e.end_local, OFF_REPLACE⟩) g hg
        exact ⟨le_trans (instant_le_maxDT _ _) this.1, this.2⟩

/-- Events whose parsed end instant does not reach past `b` never affect
the sweep once the cursor instant is at or beyond `b`. -/
theorem sweepGaps_filter (de : AwareDT) (b : Int) :
    ∀ (l : List Evento) (c : AwareDT), b ≤ instant c →
      sweepGaps de c l =
        sweepGaps de c (l.filter fun e => decide (b < e.end_local + OFF_REPLACE))
  | [], c, _ => rfl
  | e :: rest, c, hbc => by
    have hinst : instant ⟨e.end_local, OFF_REPLACE⟩ = e.end_local + OFF_REPLACE := rfl
    by_cases h1 : instant ⟨e.end_local, OFF_REPLACE⟩ ≤ instant c
    · by_cases h2 : b < e.end_local + OFF_REPLACE
      · have hd : decide (b < e.end_local + OFF_REPLACE) = true := decide_eq_true h2
        simp only [List.filter, hd, sweepGaps, h1, if_true]
        exact sweepGaps_filter de b rest c hbc
      · have hd : decide (b < e.end_local + OFF_REPLACE) = false := decide_eq_false h2
        simp only [List.filter, hd, sweepGaps, h1, if_true]
        exact sweepGaps_filter de b rest c hbc
    · have h2 : b < e.end_local + OFF_REPLACE := by
        rw [hinst] at h1
        omega
      have hd : decide (b < e.end_local + OFF_REPLACE) = true := decide_eq_true h2
      have hrec : b ≤ instant (maxDT c ⟨e.end_local, OFF_REPLACE⟩) :=
        le_trans hbc (instant_le_maxDT _ _)
      simp only [List.filter, hd, sweepGaps, h1, if_false]
      by_cases h3 : instant c < instant ⟨e.start_local, OFF_REPLACE⟩
      · simp only [h3, if_true]
        rw [sweepGaps_filter de b rest (maxDT c ⟨e.end_local, OFF_REPLACE⟩) hrec]
      · simp only [h3, if_false]
        exact sweepGaps_filter de b rest (maxDT c ⟨e.end_local, OFF_REPLACE⟩) hrec

/-! ### Deduplication invariants -/

/-- Pairwise-distinct dedup keys. -/
def KeyDistinct (l : List Slot) : Prop :=
  List.Pairwise (fun a b => dedupKey a ≠ dedupKey b) l

theorem mem_updAssoc (acc : List Slot) (r x : Slot) :
    x ∈ updAssoc acc r → x ∈ acc ∨ x = r := by
  unfold updAssoc
  split
  · intro hx
    rcases List.mem_map.mp hx with ⟨y, hy, hxy⟩
    by_cases h : dedupKey y = dedupKey r
    · right
      rw [← hxy]
      simp [h]
    · left
      rw [← hxy]
      simpa [h] using hy
  · intro hx
    rcases List.mem_append.mp hx with h | h
    · exact Or.inl h
    · exact Or.inr (by simpa using h)

theorem mem_foldl_updAssoc :
    ∀ (rs acc : List Slot) (x : Slot),
      x ∈ rs.foldl updAssoc acc → x ∈ acc ∨ x ∈ rs
  | [], _, _, h => Or.inl h
  | r :: rs, acc, x, h => by
    rcases mem_foldl_updAssoc rs (updAssoc acc r) x h with h' | h'
    · rcases mem_updAssoc acc r x h' with h'' | h''
      · exact Or.inl h''
      · exact Or.inr (by simp [h''])
    · exact Or.inr (List.mem_cons_of_mem _ h')

theorem mem_of_mem_dedupe (rs : List Slot) (x : Slot) (h : x ∈ dedupe rs) :
    x ∈ rs := by
  rcases mem_foldl_updAssoc rs [] x h with h' | h'
  · exact absurd h' (List.not_mem_nil x)
  · exact h'

theorem exists_key_updAssoc (acc : List Slot) (r : Slot)
    (k : String × Int × Int × String × String)
    (h : (∃ x ∈ acc, dedupKey x = k) ∨ dedupKey r = k) :
    ∃ x ∈ updAssoc acc r, dedupKey x = k := by
  unfold updAssoc
  split
  · rename_i hc
    rcases h with ⟨x, hx, hxk⟩ | hk
    · refine ⟨if dedupKey x = dedupKey r then r else x, List.mem_map_of_mem _ hx, ?_⟩
      by_cases hxr : dedupKey x = dedupKey r
      · rw [if_pos hxr, ← hxr]
        exact hxk
      · rw [if_neg hxr]
        exact hxk
    · rcases List.any_eq_true.mp hc with ⟨y, hy, hyk⟩
      have hyr : dedupKey y = dedupKey r := of_decide_eq_true hyk
      refine ⟨if dedupKey y = dedupKey r then r else y, List.mem_map_of_mem _ hy, ?_⟩
      simp [hyr, hk]
  · rcases h with ⟨x, hx, hxk⟩ | hk
    · exact ⟨x, List.mem_append_left _ hx, hxk⟩
    · exact ⟨r, List.mem_append_right _ (by simp), hk⟩

theorem exists_key_foldl :
    ∀ (rs acc : List Slot) (k : String × Int × Int × String × String),
      ((∃ x ∈ acc, dedupKey x = k) ∨ (∃ x ∈ rs, dedupKey x = k)) →
        ∃ x ∈ rs.foldl updAssoc acc, dedupKey x = k
  | [], acc, k, h => by
    rcases h with h | ⟨x, hx, _⟩
    · exact h
    · exact absurd hx (List.not_mem_nil x)
  | r :: rs, acc, k, h => by
    apply exists_key_foldl rs (updAssoc acc r) k
    rcases h with h | ⟨x, hx, hxk⟩
    · exact Or.inl (exists_key_updAssoc acc r k (Or.inl h))
    · rcases List.mem_cons.mp hx with rfl | hx'
      · exact Or.inl (exists_key_updAssoc acc x k (Or.inr hxk))
      · exact Or.inr ⟨x, hx', hxk⟩

theorem exists_key_dedupe (rs : List Slot) (x : Slot) (hx : x ∈ rs) :
    ∃ y ∈ dedupe rs, dedupKey y = dedupKey x :=
  exists_key_foldl rs [] (dedupKey x) (Or.inr ⟨x, hx, rfl⟩)

theorem keyDistinct_updAssoc (acc : List Slot) (r : Slot)
    (h : KeyDistinct acc) : KeyDistinct (updAssoc acc r) := by
  unfold updAssoc
  split
  · unfold KeyDistinct
    rw [List.pairwise_map]
    refine h.imp ?_
    intro a b hab
    have ka : dedupKey (if dedupKey a = dedupKey r then r else a) = dedupKey a := by
      by_cases ha : dedupKey a = dedupKey r
      · rw [if_pos ha, ha]
      · rw [if_neg ha]
    have kb : dedupKey (if dedupKey b = dedupKey r then r else b) = dedupKey b := by
      by_cases hb : dedupKey b = dedupKey r
      · rw [if_pos hb, hb]
      · rw [if_neg hb]
    rw [ka, kb]
    exact hab
  · rename_i hc
    unfold KeyDistinct
    rw [List.pairwise_append]
    refine ⟨h, by simp, ?_⟩
    intro a ha b hb
    rcases List.mem_singleton.mp hb with rfl
    intro hk
    have : acc.any (fun x => decide (dedupKey x = dedupKey b)) = true :=
      List.any_eq_true.mpr ⟨a, ha, decide_eq_true hk⟩
    exact hc this

theorem keyDistinct_foldl :
    ∀ (rs acc : List Slot), KeyDistinct acc →
      KeyDistinct (rs.foldl updAssoc acc)
  | [], _, h => h
  | r :: rs, acc, h =>
    keyDistinct_foldl rs (updAssoc acc r) (keyDistinct_updAssoc acc r h)

theorem keyDistinct_dedupe (rs : List Slot) : KeyDistinct (dedupe rs) :=
  keyDistinct_foldl rs [] (by simp [KeyDistinct])

theorem countP_key_eq_one (k : String × Int × Int × String × String) :
    ∀ l : List Slot, KeyDistinct l → (∃ x ∈ l, dedupKey x = k) →
      l.countP (fun x => decide (dedupKey x = k)) = 1
  | [], _, h => by
    rcases h with ⟨x, hx, _⟩
    exact absurd hx (List.not_mem_nil x)
  | a :: l, hd, h => by
    rcases List.pairwise_cons.mp hd with ⟨ha, hl⟩
    by_cases hak : dedupKey a = k
    · have hz : l.countP (fun x => decide (dedupKey x = k)) = 0 := by
        refine List.countP_eq_zero.mpr ?_
        intro b hb hbk
        exact ha b hb (hak.trans (of_decide_eq_true hbk).symm)
      simp [List.countP_cons, hak, hz]
    · have h' : ∃ x ∈ l, dedupKey x = k := by
        rcases h with ⟨x, hx, hxk⟩
        rcases List.mem_cons.mp hx with rfl | hx'
        · exact absurd hxk hak
        · exact ⟨x, hx', hxk⟩
      simp [List.countP_cons, hak, countP_key_eq_one k l hl h']

/-! ### Shape of the generated slots -/

theorem mem_slotsGapDur_fields (fecha : Int) (sala : String)
    (instr profe : Option String) (gs ge : AwareDT) (gm d : Int) (r : Slot)
    (hr : r ∈ slotsGapDur fecha sala instr profe gs ge gm d) :
    r.fecha = fecha ∧ r.sala = sala ∧ r.instrumento = instr ∧ r.profe = profe := by
  simp only [slotsGapDur] at hr
  split at hr
  · exact absurd hr (List.not_mem_nil r)
  · split at hr
    · rcases List.mem_cons.mp hr with rfl | hr
      · exact ⟨rfl, rfl, rfl, rfl⟩
      · rcases List.mem_singleton.mp hr with rfl
        exact ⟨rfl, rfl, rfl, rfl⟩
    · rcases List.mem_singleton.mp hr with rfl
      exact ⟨rfl, rfl, rfl, rfl⟩

theorem mem_slotsDeDia_fields (eventos : List Evento) (fecha : Int)
    (salas : List String) (durs : List Int) (instr profe : Option String)
    (ws we : Int) (r : Slot)
    (hr : r ∈ slotsDeDia eventos fecha salas durs instr profe ws we) :
    r.fecha = fecha ∧ r.instrumento = instr ∧ r.profe = profe := by
  simp only [slotsDeDia, List.mem_flatMap] at hr
  rcases hr with ⟨sala, _, g, _, hr⟩
  simp only [slotsDeGap] at hr
  split at hr
  · exact absurd hr (List.not_mem_nil r)
  · rcases List.mem_flatMap.mp hr with ⟨d, _, hr⟩
    rcases mem_slotsGapDur_fields _ _ _ _ _ _ _ _ _ hr with ⟨h1, _, h3, h4⟩
    exact ⟨h1, h3, h4⟩

theorem mem_resultadosDe_fields (eventos : List Evento) (fechas : List Int)
    (salas : List String) (durs : List Int) (instr profe : Option String)
    (ws we : Int) (r : Slot)
    (hr : r ∈ resultadosDe eventos fechas salas durs instr profe ws we) :
    r.instrumento = instr ∧ r.profe = profe ∧ r.fecha ∈ fechas ∧
      profeGate eventos profe r.fecha = true := by
  simp only [resultadosDe, List.mem_flatMap] at hr
  rcases hr with ⟨fecha, hf, hr⟩
  by_cases hg : profeGate eventos profe fecha = true
  · rw [if_pos hg] at hr
    rcases mem_slotsDeDia_fields _ _ _ _ _ _ _ _ _ hr with ⟨h1, h2, h3⟩
    rw [h1]
    exact ⟨h2, h3, hf, hg⟩
  · rw [if_neg hg] at hr
    exact absurd hr (List.not_mem_nil r)

theorem mem_slotsGapDur_intro (fecha : Int) (sala : String)
    (instr profe : Option String) (gs ge : AwareDT) (gm d : Int)
    (hle : ¬ d > gm) (hd2 : instant ⟨ge.wall - d, ge.off⟩ ≥ instant gs) :
    (⟨fecha, sala, instr, profe, gs.wall, gs.wall + d, d, "inicio_hueco"⟩ : Slot) ∈
        slotsGapDur fecha sala instr profe gs ge gm d ∧
      (⟨fecha, sala, instr, profe, ge.wall - d, ge.wall, d, "encastre_fin"⟩ : Slot) ∈
        slotsGapDur fecha sala instr profe gs ge gm d := by
  simp [slotsGapDur, hle, hd2]

theorem mem_resultadosDe_intro (eventos : List Evento) (fechas : List Int)
    (salas : List String) (durs : List Int) (instr profe : Option String)
    (ws we : Int) (fecha : Int) (sala : String) (g : AwareDT × AwareDT) (d : Int)
    (hf : fecha ∈ fechas) (hg : profeGate eventos profe fecha = true)
    (hs : sala ∈ salas)
    (hgap : g ∈ gapsLibres (eventos.filter fun e => e.fecha == fecha) fecha sala ws we)
    (hd : d ∈ durs) (h30 : ¬ (instant g.2 - instant g.1 < 30))
    (hdle : ¬ (d > instant g.2 - instant g.1)) :
    (⟨fecha, sala, instr, profe, g.1.wall, g.1.wall + d, d, "inicio_hueco"⟩ : Slot) ∈
        resultadosDe eventos fechas salas durs instr profe ws we ∧
      (⟨fecha, sala, instr, profe, g.2.wall - d, g.2.wall, d, "encastre_fin"⟩ : Slot) ∈
        resultadosDe eventos fechas salas durs instr profe ws we := by
  have hd2 : instant ⟨g.2.wall - d, g.2.off⟩ ≥ instant g.1 := by
    simp only [instant] at h30 hdle ⊢
    omega
  have hmem := mem_slotsGapDur_intro fecha sala instr profe g.1 g.2
    (instant g.2 - instant g.1) d hdle hd2
  have hgapmem : ∀ r : Slot,
      r ∈ slotsGapDur fecha sala instr profe g.1 g.2 (instant g.2 - instant g.1) d →
      r ∈ resultadosDe eventos fechas salas durs instr profe ws we := by
    intro r hr
    simp only [resultadosDe, List.mem_flatMap]
    refine ⟨fecha, hf, ?_⟩
    rw [if_pos hg]
    simp only [slotsDeDia, List.mem_flatMap]
    refine ⟨sala, hs, g, hgap, ?_⟩
    simp only [slotsDeGap]
    rw [if_neg h30]
    exact List.mem_flatMap.mpr ⟨d, hd, hr⟩
  exact ⟨hgapmem _ hmem.1, hgapmem _ hmem.2⟩

theorem ok_window (eventos : List Evento) (d0 d1 : Int)
    (instr profe : Option String) (dur : Option Int) (csv : Option String)
    (ws we : Int) (out : List Slot)
    (hok : disponibilidad eventos d0 d1 instr profe dur csv ws we = Except.ok out) :
    ws < we := by
  by_contra hw
  simp [disponibilidad, hw] at hok

theorem ok_out_eq (eventos : List Evento) (d0 d1 : Int)
    (instr profe : Option String) (dur : Option Int) (csv : Option String)
    (ws we : Int) (out : List Slot)
    (hok : disponibilidad eventos d0 d1 instr profe dur csv ws we = Except.ok out) :
    out = sortByLe slotKeyLe (dedupe (resultadosDe eventos (fechasOf d0 d1)
      (salasOf csv instr) (duracionesOf dur) instr profe ws we)) := by
  have hw : ws < we := ok_window _ _ _ _ _ _ _ _ _ _ hok
  rw [disponibilidad, if_pos hw] at hok
  injection hok with h
  exact h.symm

/-- Extraction of slot fields from a dedup key equality. -/
theorem dedupKey_fields (r : Slot) (sala : String) (a b : Int) (p i : String)
    (h : dedupKey r = (sala, a, b, p, i)) :
    r.sala = sala ∧ r.start_local = a ∧ r.end_local = b := by
  simp only [dedupKey, Prod.mk.injEq] at h
  exact ⟨h.1, h.2.1, h.2.2.1⟩

/-- The central reachability fact: any slot generated for a gap survives to
the final output as a slot with the same dedup key. -/
theorem out_has_keys (eventos : List Evento) (d0 d1 : Int)
    (instr profe : Option String) (dur : Option Int) (csv : Option String)
    (ws we : Int) (out : List Slot) (fecha : Int) (sala : String)
    (g : AwareDT × AwareDT) (d : Int)
    (hok : disponibilidad eventos d0 d1 instr profe dur csv ws we = Except.ok out)
    (hf : fecha ∈ fechasOf d0 d1)
    (hg : profeGate eventos profe fecha = true)
    (hs : sala ∈ salasOf csv instr)
    (hgap : g ∈ gapsLibres (eventos.filter fun e => e.fecha == fecha) fecha sala ws we)
    (hd : d ∈ duracionesOf dur) (h30 : ¬ (instant g.2 - instant g.1 < 30))
    (hdle : ¬ (d > instant g.2 - instant g.1)) :
    (∃ r ∈ out,
        dedupKey r = (sala, g.1.wall, g.1.wall + d, profe.getD (""), instr.getD (""))) ∧
      (∃ r ∈ out,
        dedupKey r = (sala, g.2.wall - d, g.2.wall, profe.getD (""), instr.getD (""))) := by
  have hout := ok_out_eq _ _ _ _ _ _ _ _ _ _ hok
  have hmem := mem_resultadosDe_intro eventos (fechasOf d0 d1) (salasOf csv instr)
    (duracionesOf dur) instr profe ws we fecha sala g d hf hg hs hgap hd h30 hdle
  constructor
  · rcases exists_key_dedupe _ _ hmem.1 with ⟨y, hy, hk⟩
    refine ⟨y, ?_, ?_⟩
    · rw [hout, mem_sortByLe]
      exact hy
    · rw [hk]
      rfl
  · rcases exists_key_dedupe _ _ hmem.2 with ⟨y, hy, hk⟩
    refine ⟨y, ?_, ?_⟩
    · rw [hout, mem_sortByLe]
      exact hy
    · rw [hk]
      rfl

/-- A room with no events at all contributes its full working window as the
single gap. -/
theorem gapsLibres_empty (enDia : List Evento) (fecha : Int) (sala : String)
    (ws we : Int) (hno : ∀ e ∈ enDia, e.sala ≠ sala) (hw : ws < we) :
    gapsLibres enDia fecha sala ws we =
      [(⟨fecha * 1440 + ws, OFF_LOCALIZE⟩, ⟨fecha * 1440 + we, OFF_LOCALIZE⟩)] := by
  have hf : enDia.filter (fun e => e.sala == sala) = [] := by
    rw [List.filter_eq_nil_iff]
    intro e he
    simpa using hno e he
  have hlt : instant ⟨fecha * 1440 + ws, OFF_LOCALIZE⟩ <
      instant ⟨fecha * 1440 + we, OFF_LOCALIZE⟩ := by
    simp only [instant]
    omega
  simp [gapsLibres, hf, sortByLe, sweepGaps, hlt]

/-! ### The requested teacher only feeds the gate and the output field -/

theorem any_congr_mem (l : List α) (f g : α → Bool)
    (h : ∀ x ∈ l, f x = g x) : l.any f = l.any g := by
  induction l with
  | nil => rfl
  | cons a l ih =>
    simp only [List.any_cons, h a (by simp)]
    rw [ih fun x hx => h x (by simp [hx])]

theorem slotsGapDur_setProfe (fecha : Int) (sala : String) (instr : Option String)
    (p : String) (gs ge : AwareDT) (gm d : Int) :
    slotsGapDur fecha sala instr (some p) gs ge gm d =
      (slotsGapDur fecha sala instr none gs ge gm d).map (setProfe p) := by
  simp only [slotsGapDur]
  split
  · rfl
  · split
    · simp [setProfe]
    · simp [setProfe]

theorem flatMap_map_congr {β : Type} (g : α → α) (f f' : β → List α) :
    ∀ l : List β, (∀ b ∈ l, f' b = (f b).map g) →
      l.flatMap f' = (l.flatMap f).map g
  | [], _ => rfl
  | b :: bs, h => by
    simp only [List.flatMap_cons, List.map_append]
    rw [h b (by simp), flatMap_map_congr g f f' bs fun x hx => h x (by simp [hx])]

theorem slotsDeGap_setProfe (fecha : Int) (sala : String) (instr : Option String)
    (p : String) (durs : List Int) (g : AwareDT × AwareDT) :
    slotsDeGap fecha sala instr (some p) durs g =
      (slotsDeGap fecha sala instr none durs g).map (setProfe p) := by
  simp only [slotsDeGap]
  split
  · rfl
  · exact flatMap_map_congr (setProfe p) _ _ durs fun d _ =>
      slotsGapDur_setProfe fecha sala instr p g.1 g.2 (instant g.2 - instant g.1) d

theorem slotsDeDia_setProfe (eventos : List Evento) (fecha : Int)
    (salas : List String) (durs : List Int) (instr : Option String)
    (p : String) (ws we : Int) :
    slotsDeDia eventos fecha salas durs instr (some p) ws we =
      (slotsDeDia eventos fecha salas durs instr none ws we).map (setProfe p) := by
  simp only [slotsDeDia]
  refine flatMap_map_congr (setProfe p) _ _ salas fun sala _ => ?_
  exact flatMap_map_congr (setProfe p) _ _ _ fun g _ =>
    slotsDeGap_setProfe fecha sala instr p durs g

theorem resultadosDe_setProfe (eventos : List Evento) (fechas : List Int)
    (salas : List String) (durs : List Int) (instr : Option String)
    (p : String) (ws we : Int)
    (hgate : ∀ f ∈ fechas, profeGate eventos (some p) f = true) :
    resultadosDe eventos fechas salas durs instr (some p) ws we =
      (resultadosDe eventos fechas salas durs instr none ws we).map (setProfe p) := by
  simp only [resultadosDe]
  refine flatMap_map_congr (setProfe p) _ _ fechas fun f hf => ?_
  rw [if_pos (hgate f hf)]
  have hn : profeGate eventos none f = true := rfl
  rw [if_pos hn]
  exact slotsDeDia_setProfe eventos f salas durs instr p ws we

theorem dedupKey_setProfe_iff (p : String) (a b : Slot)
    (ha : a.profe = none) (hb : b.profe = none) :
    dedupKey (setProfe p a) = dedupKey (setProfe p b) ↔ dedupKey a = dedupKey b := by
  simp [dedupKey, setProfe, ha, hb, Prod.ext_iff]

theorem any_key_map (p : String) (acc : List Slot) (r : Slot)
    (hacc : ∀ x ∈ acc, x.profe = none) (hr : r.profe = none) :
    ((acc.map (setProfe p)).any fun x =>
        decide (dedupKey x = dedupKey (setProfe p r))) =
      (acc.any fun x => decide (dedupKey x = dedupKey r)) := by
  rw [List.any_map]
  apply any_congr_mem
  intro x hx
  simp only [Function.comp]
  rw [decide_eq_decide]
  exact dedupKey_setProfe_iff p x r (hacc x hx) hr

theorem updAssoc_map_setProfe (p : String) (acc : List Slot) (r : Slot)
    (hacc : ∀ x ∈ acc, x.profe = none) (hr : r.profe = none) :
    updAssoc (acc.map (setProfe p)) (setProfe p r) =
      (updAssoc acc r).map (setProfe p) := by
  unfold updAssoc
  rw [any_key_map p acc r hacc hr]
  split
  · rw [List.map_map, List.map_map]
    apply List.map_congr_left
    intro x hx
    by_cases hk : dedupKey x = dedupKey r
    · have hk' : dedupKey (setProfe p x) = dedupKey (setProfe p r) :=
        (dedupKey_setProfe_iff p x r (hacc x hx) hr).mpr hk
      simp [Function.comp, hk, hk']
    · have hk' : ¬ dedupKey (setProfe p x) = dedupKey (setProfe p r) := fun hc =>
        hk ((dedupKey_setProfe_iff p x r (hacc x hx) hr).mp hc)
      simp [Function.comp, hk, hk']
  · simp

theorem foldl_updAssoc_map (p : String) :
    ∀ (rs acc : List Slot), (∀ x ∈ rs, x.profe = none) →
      (∀ x ∈ acc, x.profe = none) →
      (rs.map (setProfe p)).foldl updAssoc (acc.map (setProfe p)) =
        (rs.foldl updAssoc acc).map (setProfe p)
  | [], _, _, _ => rfl
  | r :: rs, acc, hrs, hacc => by
    simp only [List.map_cons, List.foldl_cons]
    rw [updAssoc_map_setProfe p acc r hacc (hrs r (by simp))]
    refine foldl_updAssoc_map p rs (updAssoc acc r)
      (fun x hx => hrs x (by simp [hx])) ?_
    intro x hx
    rcases mem_updAssoc acc r x hx with h | h
    · exact hacc x h
    · rw [h]
      exact hrs r (by simp)

theorem dedupe_map_setProfe (p : String) (rs : List Slot)
    (h : ∀ x ∈ rs, x.profe = none) :
    dedupe (rs.map (setProfe p)) = (dedupe rs).map (setProfe p) := by
  have := foldl_updAssoc_map p rs [] h (by simp)
  simpa [dedupe] using this

theorem insertByLe_map (le : α → α → Bool) (g : α → α)
    (hg : ∀ a b, le (g a) (g b) = le a b) (x : α) :
    ∀ l : List α, insertByLe le (g x) (l.map g) = (insertByLe le x l).map g
  | [] => rfl
  | y :: ys => by
    simp only [List.map_cons, insertByLe, hg x y]
    by_cases h : le x y
    · simp [h]
    · simp [h, insertByLe_map le g hg x ys]

theorem sortByLe_map (le : α → α → Bool) (g : α → α)
    (hg : ∀ a b, le (g a) (g b) = le a b) :
    ∀ l : List α, sortByLe le (l.map g) = (sortByLe le l).map g
  | [] => rfl
  | x :: xs => by
    simp only [List.map_cons, sortByLe]
    rw [sortByLe_map le g hg xs, insertByLe_map le g hg x _]

theorem slotKeyLe_setProfe (p : String) (a b : Slot) :
    slotKeyLe (setProfe p a) (setProfe p b) = slotKeyLe a b := rfl

/-! ### Claim theorems -/

/-- Claim C1, counterexample: with an explicit requested duration of 40
(outside {30,45,60}) the request is not rejected — `disponibilidad`
answers `ok` with a non-empty slot list (the durations silently fall back
to {30,45,60}, and the 30-minute slot fits the 30-minute window). -/
theorem c1_cex :
    isOkB (disponibilidad [] 0 0 none none (some 40) (some ("Sala grande")) 840 870)
        = true ∧
      okOf (disponibilidad [] 0 0 none none (some 40) (some ("Sala grande")) 840 870)
        = [⟨0, "Sala grande", none, none, 840, 870, 30, "encastre_fin"⟩] := by
  decide

/-- Claim C1 as amended: an explicit duration outside {30,45,60} is not
rejected; the candidate durations silently become {30,45,60} and the
request behaves exactly as if no duration had been requested. -/
theorem c1_amended (eventos : List Evento) (d0 d1 : Int)
    (instr profe : Option String) (d : Int) (csv : Option String) (ws we : Int)
    (h30 : d ≠ 30) (h45 : d ≠ 45) (h60 : d ≠ 60) :
    disponibilidad eventos d0 d1 instr profe (some d) csv ws we =
      disponibilidad eventos d0 d1 instr profe none csv ws we := by
  have hd : duracionesOf (some d) = duracionesOf none := by
    simp [duracionesOf, h30, h45, h60]
  simp only [disponibilidad, hd]

/-- Witness for the amended claim C1 at the concrete duration 40. -/
theorem c1_amended_w :
    ((40 : Int) ≠ 30 ∧ (40 : Int) ≠ 45 ∧ (40 : Int) ≠ 60) ∧
      disponibilidad [] 0 0 none none (some 40) (some ("Sala grande")) 840 870 =
        disponibilidad [] 0 0 none none none (some ("Sala grande")) 840 870 :=
  ⟨by decide,
    c1_amended [] 0 0 none none 40 (some ("Sala grande")) 840 870
      (by decide) (by decide) (by decide)⟩

/-- Claim C2 (code bug), evaluated at the failing input: the all-day raw
event dated day 20157 (2025-03-10).  Normalization lands it on the
previous local day 20156 at 21:00-23:59 (the date-only string is parsed as
midnight UTC and then shifted to UTC-03:00), so the gap computation for
2025-03-10 still returns the entire working window — not the
zero-availability day the spec (and the code's own comment
"cubrir todo el día") promises. -/
theorem c2_allday_eval :
    (normRaw ("Sala grande") (.dateOnly 20157) (.dateOnly 20158) none none).fecha
        = 20156 ∧
      (normRaw ("Sala grande") (.dateOnly 20157) (.dateOnly 20158) none none).fecha
        ≠ 20157 ∧
      (normRaw ("Sala grande") (.dateOnly 20157) (.dateOnly 20158) none none).start_local
        = 20156 * 1440 + 1260 ∧
      (normRaw ("Sala grande") (.dateOnly 20157) (.dateOnly 20158) none none).end_local
        = 20156 * 1440 + 1439 ∧
      (normRaw ("Sala grande") (.dateOnly 20157) (.dateOnly 20158) none none).duracion_min
        = 179 ∧
      gapsLibres [normRaw ("Sala grande") (.dateOnly 20157) (.dateOnly 20158) none none]
          20157 ("Sala grande") 840 1260
        = [(⟨20157 * 1440 + 840, OFF_LOCALIZE⟩, ⟨20157 * 1440 + 1260, OFF_LOCALIZE⟩)] := by
  decide

/-- Claim C3, counterexample: an event lying entirely after `window_end`
(22:00-23:00 against the 14:00-21:00 window) is not ignored — the sweep
emits a gap whose wall end 22:00 reaches past `window_end = 21:00` and
whose result differs from the event-free gap list; and an event lying
entirely before the window (13:20-13:30) is not ignored either — its
re-parsed bounds carry the -03:54 offset, so its end instant falls after
the window start instant and the sweep emits a gap whose wall start 13:30
precedes `window_start = 14:00`. -/
theorem c3_cex :
    gapsLibres [⟨"Sala grande", 0, 1320, 1380, 60, none, none⟩]
        0 ("Sala grande") 840 1260 =
      [(⟨840, OFF_LOCALIZE⟩, ⟨1320, OFF_REPLACE⟩)] ∧
      gapsLibres [] 0 ("Sala grande") 840 1260 =
        [(⟨840, OFF_LOCALIZE⟩, ⟨1260, OFF_LOCALIZE⟩)] ∧
      ¬((1320 : Int) ≤ 1260) ∧
      gapsLibres [⟨"Sala grande", 0, 800, 810, 10, none, none⟩]
          0 ("Sala grande") 840 1260 =
        [(⟨840, OFF_LOCALIZE⟩, ⟨800, OFF_REPLACE⟩),
          (⟨810, OFF_REPLACE⟩, ⟨1260, OFF_LOCALIZE⟩)] ∧
      ¬((840 : Int) ≤ 810) := by
  decide

/-- Claim C3 as amended: every gap starts at or after the window start and
before its own end as instants, and an event whose re-parsed end instant —
its wall end plus the -03:54 offset — is at or before the window start
instant has no effect on the result; but events neither intersecting the
window nor satisfying that instant bound are not ignored: an event after
`window_end` extends a gap past `window_end`, and an event ending in the
54 wall-clock minutes before `window_start` injects a gap starting before
`window_start` (per the counterexample). -/
theorem c3_amended :
    (∀ (enDia : List Evento) (fecha : Int) (sala : String) (ws we : Int)
        (g : AwareDT × AwareDT), g ∈ gapsLibres enDia fecha sala ws we →
          fecha * 1440 + ws + OFF_LOCALIZE ≤ instant g.1 ∧
            instant g.1 < instant g.2) ∧
      (∀ (enDia : List Evento) (fecha : Int) (sala : String) (ws we : Int),
        gapsLibres enDia fecha sala ws we =
          gapsLibres (enDia.filter fun e =>
              decide (fecha * 1440 + ws + OFF_LOCALIZE < e.end_local + OFF_REPLACE))
            fecha sala ws we) := by
  constructor
  · intro enDia fecha sala ws we g hg
    exact sweepGaps_bounds _ _ _ g hg
  · intro enDia fecha sala ws we
    simp only [gapsLibres]
    rw [sweepGaps_filter ⟨fecha * 1440 + we, OFF_LOCALIZE⟩
      (fecha * 1440 + ws + OFF_LOCALIZE) _ ⟨fecha * 1440 + ws, OFF_LOCALIZE⟩
      (le_refl _)]
    rw [filter_sortByLe evLe evLe_total evLe_trans]
    rw [List.filter_comm]

/-- Witness for the amended claim C3 at a concrete gap. -/
theorem c3_amended_w :
    ((⟨840, OFF_LOCALIZE⟩, ⟨1260, OFF_LOCALIZE⟩) ∈
        gapsLibres [] 0 ("Sala grande") 840 1260) ∧
      ((0 : Int) * 1440 + 840 + OFF_LOCALIZE ≤
          instant ⟨840, OFF_LOCALIZE⟩ ∧
        instant (⟨840, OFF_LOCALIZE⟩ : AwareDT) <
          instant (⟨1260, OFF_LOCALIZE⟩ : AwareDT)) :=
  ⟨by decide, c3_amended.1 [] 0 ("Sala grande") 840 1260
    (⟨840, OFF_LOCALIZE⟩, ⟨1260, OFF_LOCALIZE⟩) (by decide)⟩

/-- Claim C4, counterexample: an explicitly supplied room list is reordered
when the requested instrument is piano — the CSV "Sala terraza,Sala piano"
comes out as ["Sala piano", "Sala terraza"], not verbatim. -/
theorem c4_cex :
    salasOf (some ("Sala terraza,Sala piano")) (some ("piano"))
        = ["Sala piano", "Sala terraza"] ∧
      salasOf (some ("Sala terraza,Sala piano")) (some ("piano"))
        ≠ ["Sala terraza", "Sala piano"] := by
  decide

/-- Claim C4 as amended: an explicit room list keeps exactly its (trimmed)
entries, and for a non-piano instrument its order is used verbatim; when
the instrument is piano the list is stably re-sorted by the fixed
preference order. -/
theorem c4_amended (csv : String) (instr : Option String)
    (h : esVacia csv = false) :
    ((salasOf (some csv) instr).Perm ((splitComma csv).map strTrim)) ∧
      (strLower (instr.getD ("")) ≠ "piano" →
        salasOf (some csv) instr = (splitComma csv).map strTrim) := by
  refine ⟨?_, ?_⟩
  · simp only [salasOf, h]
    split
    · exact sortByLe_perm _ _
    · exact List.Perm.refl _
  · intro hp
    simp [salasOf, h, hp]

/-- Witness for the amended claim C4 at a concrete CSV list. -/
theorem c4_amended_w :
    (esVacia ("Sala grande,Sala piano") = false ∧
        strLower (Option.getD (some ("guitarra")) ("")) ≠ "piano") ∧
      salasOf (some ("Sala grande,Sala piano")) (some ("guitarra")) =
        (splitComma ("Sala grande,Sala piano")).map strTrim :=
  ⟨⟨by decide, by decide⟩,
    (c4_amended ("Sala grande,Sala piano") (some ("guitarra")) (by decide)).2
      (by decide)⟩

/-- Claim C5, counterexample: the room label "Sala inexistente" is not a
policy room, yet it is neither rejected nor dropped — it contributes a
full-window availability slot. -/
theorem c5_cex :
    isOkB (disponibilidad [] 0 0 none none none (some ("Sala inexistente")) 840 870)
        = true ∧
      okOf (disponibilidad [] 0 0 none none none (some ("Sala inexistente")) 840 870)
        = [⟨0, "Sala inexistente", none, none, 840, 870, 30, "encastre_fin"⟩] ∧
      ("Sala inexistente") ∉ CALENDAR_SALAS := by
  decide

/-- Claim C5 as amended: an explicitly requested room label is neither
rejected nor dropped, recognized or not — any label in the room list with
no events assigned to it contributes full-window availability slots like
any other room. -/
theorem c5_amended (eventos : List Evento) (d0 d1 : Int)
    (instr : Option String) (dur : Option Int) (csv : String) (ws we : Int)
    (out : List Slot) (sala : String) (fecha d : Int)
    (hok : disponibilidad eventos d0 d1 instr none dur (some csv) ws we =
      Except.ok out)
    (hs : sala ∈ salasOf (some csv) instr)
    (hno : ∀ e ∈ eventos, e.sala ≠ sala)
    (hf : fecha ∈ fechasOf d0 d1)
    (hd : d ∈ duracionesOf dur)
    (h30 : 30 ≤ we - ws) (hdle : d ≤ we - ws) :
    ∃ r ∈ out, r.sala = sala ∧ r.start_local = fecha * 1440 + ws ∧
      r.end_local = fecha * 1440 + ws + d := by
  have hw : ws < we := ok_window _ _ _ _ _ _ _ _ _ _ hok
  have hgap : ((⟨fecha * 1440 + ws, OFF_LOCALIZE⟩, ⟨fecha * 1440 + we, OFF_LOCALIZE⟩) :
        AwareDT × AwareDT) ∈
      gapsLibres (eventos.filter fun e => e.fecha == fecha) fecha sala ws we := by
    rw [gapsLibres_empty _ _ _ _ _ (fun e he => hno e (List.mem_of_mem_filter he)) hw]
    simp
  have hkeys := out_has_keys eventos d0 d1 instr none dur (some csv) ws we out
    fecha sala (⟨fecha * 1440 + ws, OFF_LOCALIZE⟩, ⟨fecha * 1440 + we, OFF_LOCALIZE⟩)
    d hok hf rfl hs hgap hd
    (by show ¬ (fecha * 1440 + we + OFF_LOCALIZE - (fecha * 1440 + ws + OFF_LOCALIZE) < 30)
        omega)
    (by show ¬ (d > fecha * 1440 + we + OFF_LOCALIZE - (fecha * 1440 + ws + OFF_LOCALIZE))
        omega)
  rcases hkeys.1 with ⟨r, hr, hk⟩
  rcases dedupKey_fields r sala (fecha * 1440 + ws) (fecha * 1440 + ws + d) _ _ hk
    with ⟨h1, h2, h3⟩
  exact ⟨r, hr, h1, h2, h3⟩

/-- Witness for the amended claim C5: the unrecognized room
"Sala inexistente", explicitly requested with no events, yields a slot. -/
theorem c5_amended_w :
    (("Sala inexistente") ∈ salasOf (some ("Sala inexistente")) none ∧
        (0 : Int) ∈ fechasOf 0 0 ∧ (30 : Int) ∈ duracionesOf none ∧
        (30 : Int) ≤ 1260 - 840) ∧
      ∃ r ∈ okOf (disponibilidad [] 0 0 none none none
          (some ("Sala inexistente")) 840 1260),
        r.sala = ("Sala inexistente") ∧ r.start_local = 0 * 1440 + 840 ∧
          r.end_local = 0 * 1440 + 840 + 30 :=
  ⟨⟨by decide, by decide, by decide, by decide⟩,
    c5_amended [] 0 0 none none ("Sala inexistente") 840 1260 _
      ("Sala inexistente") 0 30 rfl (by decide) (by simp) (by decide) (by decide)
      (by decide) (by decide)⟩

/-- Claim C6, counterexample: with `end_date` (day 0) earlier than
`start_date` (day 1) the request does not fail — `disponibilidad` answers
`ok` with the empty slot list. -/
theorem c6_cex :
    isOkB (disponibilidad [] 1 0 none none none none 840 1260) = true ∧
      okOf (disponibilidad [] 1 0 none none none none 840 1260) = [] := by
  decide

/-- Claim C6 as amended: with `end_date` earlier than `start_date` the
date list is empty, so `disponibilidad` returns an empty slot list without
raising any error. -/
theorem c6_amended (eventos : List Evento) (instr profe : Option String)
    (dur : Option Int) (csv : Option String) (d0 d1 ws we : Int)
    (hw : ws < we) (hd : d1 < d0) :
    disponibilidad eventos d0 d1 instr profe dur csv ws we = Except.ok [] := by
  have hn : (d1 - d0 + 1).toNat = 0 := by omega
  have hf : fechasOf d0 d1 = [] := by
    simp [fechasOf, hn]
  simp [disponibilidad, hw, hf, resultadosDe, dedupe, sortByLe]

/-- Witness for the amended claim C6 at a concrete inverted range. -/
theorem c6_amended_w :
    ((840 : Int) < 1260 ∧ (0 : Int) < 1) ∧
      disponibilidad [] 1 0 none none none none 840 1260 = Except.ok [] :=
  ⟨by decide, c6_amended [] none none none none 1 0 840 1260 (by decide) (by decide)⟩

/-- Claim C8, counterexample: the gap finder can return a gap whose code-
measured length (the instant difference, here 30 minutes) admits a
candidate duration equal to it while its wall bounds are inverted: with
one event 13:36-21:40 against the 14:00-21:00 window, the sweep emits the
gap from the localized 14:00 window start to the -03:54-parsed 13:36 event
start.  For the requested duration 30 — equal to the gap length the code
computes — the start and dovetail slots do NOT coincide: the output holds
both 14:00-14:30 and 13:06-13:36, and no slot `[gap_start, gap_end)`
exists, refuting the collapse-to-one clause. -/
theorem c8_cex :
    gapsLibres [⟨"Sala grande", 0, 816, 1300, 484, none, none⟩]
        0 ("Sala grande") 840 1260 =
      [(⟨840, OFF_LOCALIZE⟩, ⟨816, OFF_REPLACE⟩)] ∧
      instant (⟨816, OFF_REPLACE⟩ : AwareDT) -
          instant (⟨840, OFF_LOCALIZE⟩ : AwareDT) = 30 ∧
      okOf (disponibilidad [⟨"Sala grande", 0, 816, 1300, 484, none, none⟩]
          0 0 none none (some 30) (some ("Sala grande")) 840 1260) =
        [⟨0, "Sala grande", none, none, 786, 816, 30, "encastre_fin"⟩,
          ⟨0, "Sala grande", none, none, 840, 870, 30, "inicio_hueco"⟩] ∧
      (okOf (disponibilidad [⟨"Sala grande", 0, 816, 1300, 484, none, none⟩]
          0 0 none none (some 30) (some ("Sala grande")) 840 1260)).countP
        (fun r => decide (r.sala = ("Sala grande") ∧ r.start_local = 840 ∧
          r.end_local = 816)) = 0 := by
  decide

/-- Claim C8 as amended: for every gap the gap finder returns, with the gap
length measured as the code measures it — the instant difference, which
equals the wall-clock length for gaps whose two bounds carry the same pytz
offset (both event-parsed or both window bounds) and differs from it by 54
minutes for gaps mixing a window bound with an event bound — and for every
candidate duration `d` at most that length (with the length at least 30),
the output contains both the start-of-gap slot `[gs, gs+d)` and the
dovetail slot `[ge-d, ge)` in wall-clock terms; and when `d` equals the
WALL-CLOCK length `ge - gs` (as in the spec's event-bounded
`[10:00,11:00)` example, where both notions agree) the two coincide and
exactly one slot `[gs, ge)` for that room remains after deduplication. -/
theorem c8_dovetail (eventos : List Evento) (d0 d1 : Int)
    (instr profe : Option String) (dur : Option Int) (csv : Option String)
    (ws we : Int) (out : List Slot) (fecha : Int) (sala : String)
    (gs ge : AwareDT) (d : Int)
    (hok : disponibilidad eventos d0 d1 instr profe dur csv ws we = Except.ok out)
    (hf : fecha ∈ fechasOf d0 d1)
    (hg : profeGate eventos profe fecha = true)
    (hs : sala ∈ salasOf csv instr)
    (hgap : ((gs, ge) : AwareDT × AwareDT) ∈
      gapsLibres (eventos.filter fun e => e.fecha == fecha) fecha sala ws we)
    (hd : d ∈ duracionesOf dur)
    (h30 : 30 ≤ instant ge - instant gs) (hdle : d ≤ instant ge - instant gs) :
    (∃ r ∈ out, r.sala = sala ∧ r.start_local = gs.wall ∧
        r.end_local = gs.wall + d) ∧
      (∃ r ∈ out, r.sala = sala ∧ r.start_local = ge.wall - d ∧
        r.end_local = ge.wall) ∧
      (d = ge.wall - gs.wall →
        out.countP (fun r => decide (r.sala = sala ∧ r.start_local = gs.wall ∧
          r.end_local = ge.wall)) = 1) := by
  have hA : ¬ (instant ((gs, ge) : AwareDT × AwareDT).2 -
      instant ((gs, ge) : AwareDT × AwareDT).1 < 30) := by
    show ¬ (instant ge - instant gs < 30)
    omega
  have hB : ¬ (d > instant ((gs, ge) : AwareDT × AwareDT).2 -
      instant ((gs, ge) : AwareDT × AwareDT).1) := by
    show ¬ (d > instant ge - instant gs)
    omega
  have hkeys := out_has_keys eventos d0 d1 instr profe dur csv ws we out
    fecha sala (gs, ge) d hok hf hg hs hgap hd hA hB
  refine ⟨?_, ?_, ?_⟩
  · rcases hkeys.1 with ⟨r, hr, hk⟩
    rcases dedupKey_fields r sala gs.wall (gs.wall + d) _ _ hk with ⟨h1, h2, h3⟩
    exact ⟨r, hr, h1, h2, h3⟩
  · rcases hkeys.2 with ⟨r, hr, hk⟩
    rcases dedupKey_fields r sala (ge.wall - d) ge.wall _ _ hk with ⟨h1, h2, h3⟩
    exact ⟨r, hr, h1, h2, h3⟩
  · intro hdeq
    have hge : gs.wall + d = ge.wall := by omega
    have hout := ok_out_eq _ _ _ _ _ _ _ _ _ _ hok
    rw [hout, countP_sortByLe]
    have hcong : ∀ x ∈ dedupe (resultadosDe eventos (fechasOf d0 d1)
        (salasOf csv instr) (duracionesOf dur) instr profe ws we),
        (decide (x.sala = sala ∧ x.start_local = gs.wall ∧
            x.end_local = ge.wall) = true ↔
          decide (dedupKey x =
            (sala, gs.wall, ge.wall, profe.getD (""), instr.getD (""))) = true) := by
      intro x hx
      have hxR := mem_of_mem_dedupe _ _ hx
      rcases mem_resultadosDe_fields _ _ _ _ _ _ _ _ _ hxR with ⟨hi, hp, _, _⟩
      simp [dedupKey, hi, hp, Prod.ext_iff]
    rw [List.countP_congr hcong]
    apply countP_key_eq_one _ _ (keyDistinct_dedupe _)
    have hstart := (mem_resultadosDe_intro eventos (fechasOf d0 d1)
      (salasOf csv instr) (duracionesOf dur) instr profe ws we fecha sala
      (gs, ge) d hf hg hs hgap hd hA hB).1
    rcases exists_key_dedupe _ _ hstart with ⟨y, hy, hk⟩
    refine ⟨y, hy, ?_⟩
    rw [hk]
    simp [dedupKey, hge]

/-- Witness for the amended claim C8 at a 60-minute full-window gap (both
bounds localized, so instant and wall lengths agree) with duration 60:
both slots coincide and exactly one deduplicated slot remains. -/
theorem c8_dovetail_w :
    ((0 : Int) ∈ fechasOf 0 0 ∧
        ("Sala grande") ∈ salasOf (some ("Sala grande")) none ∧
        ((⟨840, OFF_LOCALIZE⟩, ⟨900, OFF_LOCALIZE⟩) : AwareDT × AwareDT) ∈
          gapsLibres (List.filter (fun e => e.fecha == 0) []) 0
            ("Sala grande") 840 900 ∧
        (60 : Int) ∈ duracionesOf none ∧
        (30 : Int) ≤ instant (⟨900, OFF_LOCALIZE⟩ : AwareDT) -
          instant (⟨840, OFF_LOCALIZE⟩ : AwareDT) ∧
        (60 : Int) ≤ instant (⟨900, OFF_LOCALIZE⟩ : AwareDT) -
          instant (⟨840, OFF_LOCALIZE⟩ : AwareDT)) ∧
      ((∃ r ∈ okOf (disponibilidad [] 0 0 none none none
            (some ("Sala grande")) 840 900),
          r.sala = ("Sala grande") ∧ r.start_local = 840 ∧
            r.end_local = 840 + 60) ∧
        (okOf (disponibilidad [] 0 0 none none none
            (some ("Sala grande")) 840 900)).countP
          (fun r => decide (r.sala = ("Sala grande") ∧ r.start_local = 840 ∧
            r.end_local = 900)) = 1) := by
  have h := c8_dovetail [] 0 0 none none none (some ("Sala grande")) 840 900 _
    0 ("Sala grande") ⟨840, OFF_LOCALIZE⟩ ⟨900, OFF_LOCALIZE⟩ 60 rfl (by decide)
    rfl (by decide) (by decide) (by decide) (by decide) (by decide)
  exact ⟨⟨by decide, by decide, by decide, by decide, by decide, by decide⟩,
    h.1, h.2.2 (by decide)⟩

/-- Claim C7, counterexample: a raw timed event with equal start and end
(2025-03-10T15:00:00Z both) is emitted by normalization as a zero-length
event — `start_local = end_local` — rather than being rejected or coerced
to a 1-minute minimum. -/
theorem c7_cex :
    ¬((normRaw ("Sala piano") (.dateTime 1741618800) (.dateTime 1741618800)
          none none).start_local <
        (normRaw ("Sala piano") (.dateTime 1741618800) (.dateTime 1741618800)
          none none).end_local) ∧
      (normRaw ("Sala piano") (.dateTime 1741618800) (.dateTime 1741618800)
          none none).duracion_min = 0 := by
  decide

/-- Claim C7 as amended: normalization enforces no ordering between
`start_local` and `end_local`; every raw timed event with equal start and
end is emitted unchanged as a zero-length normalized event whose
`duracion_min` is clamped to 0. -/
theorem c7_amended (sala : String) (t : Int) (instr profe : Option String) :
    (normRaw sala (.dateTime t) (.dateTime t) instr profe).start_local =
        (normRaw sala (.dateTime t) (.dateTime t) instr profe).end_local ∧
      (normRaw sala (.dateTime t) (.dateTime t) instr profe).duracion_min = 0 := by
  simp [normRaw, toLocalSeconds]

/-- Claim C9, confirmed: (1) with a truthy requested teacher, any date on
which that teacher does not appear (case-insensitively, accents folded)
among the parsed teachers of the day's events yields no output slot at
all; (2) on any date of the range where the presence gate passes — the
teacher appears in some event, whatever the mix on other dates — every
slot the engine generates for that date ignoring the teacher reaches the
output with the same room/start/end, so the teacher's own free/busy times
never filter slots; (3) when the gate passes on every date of the range,
the entire output is exactly the no-teacher output with the `profe` field
overwritten. -/
theorem c9_teacher_gate :
    (∀ (eventos : List Evento) (d0 d1 : Int) (instr : Option String)
        (p : String) (dur : Option Int) (csv : Option String)
        (ws we fecha : Int) (out : List Slot),
        disponibilidad eventos d0 d1 instr (some p) dur csv ws we =
          Except.ok out →
        esVacia p = false →
        strLower p ∉ (presentesEn eventos fecha).map strLower →
        ∀ r ∈ out, r.fecha ≠ fecha) ∧
      (∀ (eventos : List Evento) (d0 d1 : Int) (instr : Option String)
          (p : String) (dur : Option Int) (csv : Option String)
          (ws we fecha : Int) (out : List Slot) (r : Slot),
        disponibilidad eventos d0 d1 instr (some p) dur csv ws we =
          Except.ok out →
        fecha ∈ fechasOf d0 d1 →
        profeGate eventos (some p) fecha = true →
        r ∈ slotsDeDia eventos fecha (salasOf csv instr) (duracionesOf dur)
          instr none ws we →
        ∃ q ∈ out, dedupKey q = dedupKey (setProfe p r)) ∧
      (∀ (eventos : List Evento) (d0 d1 : Int) (instr : Option String)
          (p : String) (dur : Option Int) (csv : Option String) (ws we : Int),
        (∀ f ∈ fechasOf d0 d1, profeGate eventos (some p) f = true) →
        disponibilidad eventos d0 d1 instr (some p) dur csv ws we =
          (disponibilidad eventos d0 d1 instr none dur csv ws we).map
            (List.map (setProfe p))) := by
  refine ⟨?_, ?_, ?_⟩
  · intro eventos d0 d1 instr p dur csv ws we fecha out hok hne habs r hr
    have hout := ok_out_eq _ _ _ _ _ _ _ _ _ _ hok
    rw [hout, mem_sortByLe] at hr
    have hrR := mem_of_mem_dedupe _ _ hr
    rcases mem_resultadosDe_fields _ _ _ _ _ _ _ _ _ hrR with ⟨_, _, _, hgate⟩
    intro heq
    rw [heq] at hgate
    simp only [profeGate, hne, Bool.false_eq_true, if_false,
      decide_eq_true_eq] at hgate
    exact habs hgate
  · intro eventos d0 d1 instr p dur csv ws we fecha out r hok hfec hg hr
    have hout := ok_out_eq _ _ _ _ _ _ _ _ _ _ hok
    have hr' : setProfe p r ∈ slotsDeDia eventos fecha (salasOf csv instr)
        (duracionesOf dur) instr (some p) ws we := by
      rw [slotsDeDia_setProfe]
      exact List.mem_map_of_mem _ hr
    have hR : setProfe p r ∈ resultadosDe eventos (fechasOf d0 d1)
        (salasOf csv instr) (duracionesOf dur) instr (some p) ws we := by
      simp only [resultadosDe, List.mem_flatMap]
      refine ⟨fecha, hfec, ?_⟩
      rw [if_pos hg]
      exact hr'
    rcases exists_key_dedupe _ _ hR with ⟨q, hq, hk⟩
    refine ⟨q, ?_, hk⟩
    rw [hout, mem_sortByLe]
    exact hq
  · intro eventos d0 d1 instr p dur csv ws we hgate
    by_cases hw : ws < we
    · rw [disponibilidad, if_pos hw, disponibilidad, if_pos hw]
      simp only [Except.map]
      rw [resultadosDe_setProfe eventos (fechasOf d0 d1) (salasOf csv instr)
        (duracionesOf dur) instr p ws we hgate]
      have hnone : ∀ x ∈ resultadosDe eventos (fechasOf d0 d1)
          (salasOf csv instr) (duracionesOf dur) instr none ws we,
          x.profe = none := by
        intro x hx
        exact (mem_resultadosDe_fields _ _ _ _ _ _ _ _ _ hx).2.1
      rw [dedupe_map_setProfe p _ hnone]
      rw [sortByLe_map slotKeyLe (setProfe p) (slotKeyLe_setProfe p)]
    · rw [disponibilidad, if_neg hw, disponibilidad, if_neg hw]
      rfl

/-- Witness for claim C9: teacher "fede" absent on the only date blocks
all slots; with "fede" present, a teacher-independent slot for that date
reaches the gated output, and the whole output is the no-teacher output
with the `profe` field filled in. -/
theorem c9_teacher_gate_w :
    ((esVacia ("fede") = false ∧
        strLower ("fede") ∉
          (presentesEn [⟨"Sala grande", 0, 840, 900, 60, none, some ("sam")⟩]
            0).map strLower) ∧
      ∀ r ∈ okOf (disponibilidad
          [⟨"Sala grande", 0, 840, 900, 60, none, some ("sam")⟩] 0 0 none
          (some ("fede")) none (some ("Sala grande")) 840 1260),
        r.fecha ≠ 0) ∧
    ((profeGate [⟨"Sala grande", 0, 840, 900, 60, none, some ("fede")⟩]
          (some ("fede")) 0 = true ∧
        (⟨0, "Sala grande", none, none, 900, 930, 30, "inicio_hueco"⟩ : Slot) ∈
          slotsDeDia [⟨"Sala grande", 0, 840, 900, 60, none, some ("fede")⟩] 0
            (salasOf (some ("Sala grande")) none) (duracionesOf none) none none
            840 1260) ∧
      ∃ q ∈ okOf (disponibilidad
          [⟨"Sala grande", 0, 840, 900, 60, none, some ("fede")⟩] 0 0 none
          (some ("fede")) none (some ("Sala grande")) 840 1260),
        dedupKey q = dedupKey (setProfe ("fede")
          ⟨0, "Sala grande", none, none, 900, 930, 30, "inicio_hueco"⟩)) ∧
    ((∀ f ∈ fechasOf 0 0,
        profeGate [⟨"Sala grande", 0, 840, 900, 60, none, some ("fede")⟩]
          (some ("fede")) f = true) ∧
      disponibilidad [⟨"Sala grande", 0, 840, 900, 60, none, some ("fede")⟩]
          0 0 none (some ("fede")) none (some ("Sala grande")) 840 1260 =
        (disponibilidad [⟨"Sala grande", 0, 840, 900, 60, none, some ("fede")⟩]
            0 0 none none none (some ("Sala grande")) 840 1260).map
          (List.map (setProfe ("fede")))) :=
  ⟨⟨⟨by decide, by decide⟩,
      c9_teacher_gate.1 [⟨"Sala grande", 0, 840, 900, 60, none, some ("sam")⟩]
        0 0 none ("fede") none (some ("Sala grande")) 840 1260 0 _ rfl
        (by decide) (by decide)⟩,
    ⟨⟨by decide, by decide⟩,
      c9_teacher_gate.2.1 [⟨"Sala grande", 0, 840, 900, 60, none, some ("fede")⟩]
        0 0 none ("fede") none (some ("Sala grande")) 840 1260 0 _
        ⟨0, "Sala grande", none, none, 900, 930, 30, "inicio_hueco"⟩ rfl
        (by decide) (by decide) (by decide)⟩,
    ⟨by decide,
      c9_teacher_gate.2.2 [⟨"Sala grande", 0, 840, 900, 60, none, some ("fede")⟩]
        0 0 none ("fede") none (some ("Sala grande")) 840 1260 (by decide)⟩⟩

/-- Claim C10, confirmed: for every input the policy returns a non-empty
list drawn from the four fixed rooms, and for every instrument other than
the two drum spellings (in lowercase) it returns all four rooms. -/
theorem c10_policy (instr : Option String) :
    (salas_permitidas_por_instrumento instr ≠ [] ∧
        ∀ r ∈ salas_permitidas_por_instrumento instr, r ∈ CALENDAR_SALAS) ∧
      ((∀ s, instr = some s → strLower s ≠ "batería" ∧ strLower s ≠ "bateria") →
        ∀ r ∈ CALENDAR_SALAS, r ∈ salas_permitidas_por_instrumento instr) := by
  cases instr with
  | none => exact ⟨⟨by decide, by decide⟩, fun _ => by decide⟩
  | some s =>
    by_cases hv : esVacia s
    · simp only [salas_permitidas_por_instrumento, hv, if_true]
      exact ⟨⟨by decide, by decide⟩, fun _ => by decide⟩
    · simp only [salas_permitidas_por_instrumento, hv, Bool.false_eq_true, if_false]
      by_cases hb : strLower s = "batería" ∨ strLower s = "bateria"
      · rw [if_pos hb]
        refine ⟨⟨by decide, by decide⟩, ?_⟩
        intro h
        rcases hb with hb | hb
        · exact absurd hb (h s rfl).1
        · exact absurd hb (h s rfl).2
      · rw [if_neg hb]
        by_cases hp : strLower s = "piano"
        · rw [if_pos hp]
          exact ⟨⟨by decide, by decide⟩, fun _ => by decide⟩
        · rw [if_neg hp]
          exact ⟨⟨by decide, by decide⟩, fun _ => by decide⟩

/-- Witness for claim C10 at the concrete instrument "guitarra". -/
theorem c10_policy_w :
    (∀ s, (some ("guitarra") : Option String) = some s →
        strLower s ≠ "batería" ∧ strLower s ≠ "bateria") ∧
      ∀ r ∈ CALENDAR_SALAS, r ∈ salas_permitidas_por_instrumento (some ("guitarra")) := by
  have hside : ∀ s, (some ("guitarra") : Option String) = some s →
      strLower s ≠ "batería" ∧ strLower s ≠ "bateria" := by
    intro s hs
    injection hs with h
    rw [← h]
    exact ⟨by decide, by decide⟩
  exact ⟨hside, (c10_policy (some ("guitarra"))).2 hside⟩

end CalendarBot
